import Mathlib

/-!
Verification of the SSE streaming core of `pkg/server/run.go` (clicky-serves).

The embedding follows the Go source closely:

* JSON scalar values decoded by `json.Unmarshal` into `any` are modelled by
  `JValue` (Go gives `float64` for JSON numbers; the integral numbers that
  appear as run identifiers are modelled by `Int`, for which `fmt.Sprint`
  agrees with `toString`).
* a decoded event (`map[string]any`) is an association list `Event`;
  `Event.get e k` models the Go map index `e[k]`, returning `none` for a
  missing key (Go: the `nil` interface value).
* the Go comparison of the `string` variable `lastRunID` against the `any`
  value `e["runID"]` (`lastRunID != e["runID"]`) compares an interface holding
  a `string` with an arbitrary interface value: it is equal exactly when the
  dynamic type is `string` and the contents agree.  `strEqJ` models the
  equality, likewise `isConfirmType` models `e["type"] == callTypeConfirm`.
* writes to the shared `http.ResponseWriter` are recorded as a trace of
  `TraceAction`s: `emit p` is a call to `writeServerSentEvent` with payload `p`,
  `rawWrite s` is a direct `w.Write` of the bytes `s`, `writeErrorAction`
  is a call to `writeError`, and `waitCall` marks the invocation of the
  blocking `wait()` function.  Header manipulation (`setStreamingHeaders`)
  touches response headers, not the body byte stream, and is not recorded.
-/

/-- Scalar JSON values as produced by `json.Unmarshal` into `any`. -/
inductive JValue where
  | jnull
  | jbool (b : Bool)
  | jnum (n : Int)
  | jstr (s : String)
deriving DecidableEq, Repr

/-- A decoded JSON object (`map[string]any`), restricted to the scalar values
the streaming code inspects; modelled as an association list. -/
abbrev Event := List (String × JValue)

/-- Go map indexing `e[k]`: the first binding for `k`, or `none` (the `nil`
interface) when the key is absent. -/
def Event.get (e : Event) (k : String) : Option JValue :=
  (e.find? (fun p => p.1 == k)).map (fun p => p.2)

/-- Go interface equality between a `string` value `s` and an `any` value `v`
(`s == v` / the negation of `s != v`): true exactly when `v` holds a `string`
equal to `s`.  A `nil` interface or a non-string dynamic type is never equal. -/
def strEqJ (s : String) (v : Option JValue) : Bool :=
  match v with
  | some (JValue.jstr t) => s == t
  | _ => false

/-- The constant `callTypeConfirm` from the source. -/
def callTypeConfirm : String := "callConfirm"

/-- Go comparison `e["type"] == callTypeConfirm` (interface vs. string). -/
def isConfirmType (v : Option JValue) : Bool :=
  strEqJ callTypeConfirm v

/-- Whether an `any` value holds a Go `string`. -/
def isStringJ (v : Option JValue) : Bool :=
  match v with
  | some (JValue.jstr _) => true
  | _ => false

/-- Go `fmt.Sprint` applied to the `any` value `e["runID"]`: strings print
verbatim, numbers in decimal, the `nil` interface prints `<nil>`. -/
def jSprint (v : Option JValue) : String :=
  match v with
  | none => "<nil>"
  | some JValue.jnull => "<nil>"
  | some (JValue.jbool b) => if b then "true" else "false"
  | some (JValue.jnum n) => toString n
  | some (JValue.jstr s) => s

/-- One line delivered by the `bufio.Scanner` inside `streamEvents`:
`none` stands for an empty line or a line whose JSON fails to unmarshal
(both are skipped by the loop without touching any state), `some e` for a
successfully decoded event. -/
abbrev Line := Option Event

/-- The loop body of `streamEvents` (run.go lines 174-202), threading the
state `(lastRunID, eventBuffer)` and returning the final state together with
the list of events passed to `writeServerSentEvent`, in emission order. -/
def streamEventsFrom (lastRunID : String) (eventBuffer : List Event) :
    List Line → (String × List Event) × List Event
  | [] => ((lastRunID, eventBuffer), [])
  | Option.none :: rest => streamEventsFrom lastRunID eventBuffer rest
  | Option.some e :: rest =>
    if (!eventBuffer.isEmpty || isConfirmType (Event.get e "type"))
        && !(strEqJ lastRunID (Event.get e "runID")) then
      streamEventsFrom (jSprint (Event.get e "runID")) (eventBuffer ++ [e]) rest
    else
      let r := streamEventsFrom (jSprint (Event.get e "runID")) [] rest
      (r.1, (eventBuffer ++ [e]) ++ r.2)

/-- Events emitted by one `streamEvents` session, in order. -/
def streamEvents (lines : List Line) : List Event :=
  (streamEventsFrom "" [] lines).2

/-- The value of `lastRunID` when the `streamEvents` loop finishes. -/
def lastAfter (lines : List Line) : String :=
  (streamEventsFrom "" [] lines).1.1

/-- The contents of `eventBuffer` when the `streamEvents` loop finishes
(these events are silently discarded). -/
def bufAfter (lines : List Line) : List Event :=
  (streamEventsFrom "" [] lines).1.2

/-- The successfully parsed events of a line sequence, in order. -/
def parsedOf (lines : List Line) : List Event :=
  lines.filterMap id

/-- Payload of one call to `writeServerSentEvent`, by call site:
`passthrough e` re-emits a decoded event (`streamEvents`),
`keyed key text` is the `map[string]string{key: s.Text()}` of `streamOutput`,
`timed t key text` is the `map[string]any{"time": ..., key: text}` events of
`processEventStreamOutput` and `waitAndFinishStream` (with `t` an abstract
timestamp standing for `time.Now()`). -/
inductive EventPayload where
  | passthrough (e : Event)
  | keyed (key : String) (text : String)
  | timed (t : Nat) (key : String) (text : String)
deriving DecidableEq, Repr

/-- One observable action of a streaming session on the response writer. -/
inductive TraceAction where
  | emit (p : EventPayload)
  | writeErrorAction (code : Nat) (msg : String)
  | rawWrite (s : String)
  | waitCall
deriving DecidableEq, Repr

/-- The sentinel completion frame written at the end of `waitAndFinishStream`. -/
def sentinelFrame : String := "data: [DONE]\n\n"

/-- Whether an action writes the sentinel frame. -/
def isSentinel : TraceAction → Bool
  | TraceAction.rawWrite s => s == sentinelFrame
  | _ => false

/-- Whether an action is a `writeServerSentEvent` call whose payload is a
timed event with the given key. -/
def isTimedKey (k : String) : TraceAction → Bool
  | TraceAction.emit (EventPayload.timed _ key _) => key == k
  | _ => false

/-- Whether an action is the invocation of `wait()`. -/
def isWaitCall : TraceAction → Bool
  | TraceAction.waitCall => true
  | _ => false

/-- The result of the collaborator's blocking `wait()` function, classified
the way `waitAndFinishStream` classifies it: `none` is a `nil` error,
`deadlineExceeded` an error matching `context.DeadlineExceeded`,
`exitError` an `exec.ExitError` with its exit code and message, and
`other` any other non-nil error (with its `%v` rendering). -/
inductive GoError where
  | none
  | deadlineExceeded
  | exitError (code : Int) (msg : String)
  | other (msg : String)
deriving DecidableEq, Repr

/-- Go `%q` formatting of a string (quotation; escaping of quote and
backslash characters — the only escapes relevant to the strings that occur
here). -/
def goQuote (s : String) : String :=
  "\"" ++ String.join (s.data.map (fun c =>
    if c = '\\' then "\\\\" else if c = '"' then "\\\"" else String.singleton c)) ++ "\""

/-- The `execErrOutput` string computed by `waitAndFinishStream`
(run.go lines 210-218) from the captured stderr and the wait result. -/
def execErrOutput (stdErr : String) : GoError → String
  | GoError.none => ""
  | GoError.deadlineExceeded => "The tool call took too long to complete, aborting"
  | GoError.exitError code msg =>
      "The tool call returned an exit code of " ++ toString code ++
      " with message " ++ goQuote msg ++ " and output " ++ goQuote stdErr
  | GoError.other msg => "failed to wait: " ++ msg ++ ", error output: " ++ stdErr

/-- `waitAndFinishStream` (run.go lines 209-236): calls `wait()`, emits one
`err` event when the classified output is non-empty, then writes the
sentinel frame.  `tErr` is the `time.Now()` timestamp of the error event. -/
def waitAndFinishStream (tErr : Nat) (stdErr : String) (waitErr : GoError) : List TraceAction :=
  TraceAction.waitCall ::
    (if execErrOutput stdErr waitErr = "" then []
     else [TraceAction.emit (EventPayload.timed tErr "err" (execErrOutput stdErr waitErr))])
    ++ [TraceAction.rawWrite sentinelFrame]

/-- `dropCR` (run.go lines 296-301): drops a terminal carriage return from
the data.  Byte slices are modelled as character lists. -/
def dropCR (data : List Char) : List Char :=
  if 0 < data.length ∧ data.getLastD ' ' = '\x0d' then
    data.dropLast
  else data

/-- The split function `scan` (run.go lines 287-293): at end of input with no
buffered bytes it stops the scanner (`none` token); otherwise it consumes
everything buffered and yields it as one token with a terminal carriage
return dropped. -/
def scan (data : List Char) (atEOF : Bool) : Nat × Option (List Char) :=
  if atEOF ∧ data.length = 0 then (0, Option.none)
  else (data.length, Option.some (dropCR data))

/-- `streamOutput` (run.go lines 115-130) over the sequence of non-empty
chunks delivered by the underlying reader.  Because `scan` always consumes
the whole buffer, the scanner hands `streamOutput` exactly one token per
read chunk, namely `dropCR chunk`; tokens of length zero are skipped by the
`len(s.Bytes()) == 0` guard.  Each surviving token is written (under the
session lock) as a `{key: text}` event. -/
def streamOutput (key : String) : List (List Char) → List TraceAction
  | [] => []
  | chunk :: rest =>
    let token := dropCR chunk
    if token.isEmpty then streamOutput key rest
    else TraceAction.emit (EventPayload.keyed key (String.mk token)) :: streamOutput key rest

/-- Order-preserving interleaving of two action sequences: the possible
merged write orders produced by the two concurrent `streamOutput`
goroutines of `processOutputStream` (the per-event lock guarantees whole
actions are never split, so the merged trace is an interleaving). -/
inductive Interleave : List TraceAction → List TraceAction → List TraceAction → Prop
  | nil : Interleave [] [] []
  | left {x : TraceAction} {xs ys zs : List TraceAction} :
      Interleave xs ys zs → Interleave (x :: xs) ys (x :: zs)
  | right {y : TraceAction} {xs ys zs : List TraceAction} :
      Interleave xs ys zs → Interleave xs (y :: ys) (y :: zs)

/-- `processOutputStream` (run.go lines 92-112): the two relay goroutines
produce some interleaving `inter` of their individual traces, the
`WaitGroup` joins both before `wait()` is invoked, and the finalizer runs
with an empty captured stderr. -/
def processOutputStream (inter : List TraceAction) (tErr : Nat) (waitErr : GoError) : List TraceAction :=
  inter ++ waitAndFinishStream tErr "" waitErr

/-- `processEventStreamOutput` (run.go lines 134-162): drain the event
stream, then read all of stdout, then all of stderr (each read failure
calls `writeError` and returns early), then emit one timed stderr event and
one timed stdout event, then run the finalizer with the captured stderr.
`Except.error msg` models an `io.ReadAll` failure with error text `msg`;
`tStderr`, `tStdout`, `tErr` are the successive `time.Now()` stamps. -/
def processEventStreamOutput (lines : List Line)
    (stdoutRead stderrRead : Except String String)
    (tStderr tStdout tErr : Nat) (waitErr : GoError) : List TraceAction :=
  (streamEvents lines).map (fun e => TraceAction.emit (EventPayload.passthrough e)) ++
    match stdoutRead with
    | Except.error msg =>
        [TraceAction.writeErrorAction 500 ("failed to read stdout: " ++ msg)]
    | Except.ok out =>
      match stderrRead with
      | Except.error msg =>
          [TraceAction.writeErrorAction 500 ("failed to read stderr: " ++ msg)]
      | Except.ok stdErr =>
          [TraceAction.emit (EventPayload.timed tStderr "stderr" stdErr),
           TraceAction.emit (EventPayload.timed tStdout "stdout" out)]
          ++ waitAndFinishStream tErr stdErr waitErr

/-- An arbitrary Go value handed to `writeServerSentEvent`, abstracted to
its `json.Marshal` outcome: `none` when marshalling fails, `some s` when it
yields the byte string `s`. -/
structure GoValue where
  marshalJSON : Option String
deriving DecidableEq, Repr

/-- `writeServerSentEvent` (run.go lines 263-278) at the byte level: on a
marshal failure it logs a warning and returns, writing nothing; otherwise
it writes one `data: <json>` SSE frame (and flushes). -/
def writeServerSentEvent (event : GoValue) : List String :=
  match event.marshalJSON with
  | Option.none => []
  | Option.some ev => ["data: " ++ ev ++ "\n\n"]

/-- A sequence of consecutive `writeServerSentEvent` calls by one caller:
the bytes written are the concatenation of each call's writes. -/
def emitSession (vs : List GoValue) : List String :=
  vs.foldr (fun v acc => writeServerSentEvent v ++ acc) []

/-! Concrete events for the worked example of the spec.  The `...Num`
variants decode the spec's literal JSON `{runID: 1, type: x}` etc., where
the run identifiers are JSON numbers (what `json.Unmarshal` yields for the
literal `1`); the `...Str` variants carry the run identifiers as JSON
strings `"1"`, `"2"` instead. -/

/-- The worked example's first event with a numeric run identifier. -/
def evtXnum : Event := [("runID", JValue.jnum 1), ("type", JValue.jstr "x")]

/-- The worked example's confirm event with a numeric run identifier. -/
def evtConfirmNum : Event := [("runID", JValue.jnum 1), ("type", JValue.jstr "callConfirm")]

/-- The worked example's run-2 event with a numeric run identifier. -/
def evtYnum : Event := [("runID", JValue.jnum 2), ("type", JValue.jstr "y")]

/-- The worked example's first event with a string run identifier. -/
def evtXstr : Event := [("runID", JValue.jstr "1"), ("type", JValue.jstr "x")]

/-- The worked example's confirm event with a string run identifier. -/
def evtConfirmStr : Event := [("runID", JValue.jstr "1"), ("type", JValue.jstr "callConfirm")]

/-- The worked example's run-2 event with a string run identifier. -/
def evtYstr : Event := [("runID", JValue.jstr "2"), ("type", JValue.jstr "y")]

/-! Helper lemmas shared by the claim theorems. -/

/-- A Go `string`/`any` comparison against a value of non-string dynamic
type is never equal. -/
lemma strEqJ_of_nonstring (s : String) {v : Option JValue}
    (h : isStringJ v = false) : strEqJ s v = false := by
  cases v with
  | none => rfl
  | some j =>
    cases j with
    | jnull => rfl
    | jbool b => rfl
    | jnum n => rfl
    | jstr t => simp [isStringJ] at h

/-- Packing a non-empty character list never yields the empty string. -/
lemma stringMk_ne_empty {l : List Char} (h : l ≠ []) : String.mk l ≠ "" := by
  intro he
  apply h
  have hd := congrArg String.data he
  simpa using hd

/-- Running the `streamEvents` loop over a concatenation: the state threads
through the first part into the second, and the emissions concatenate. -/
lemma streamEventsFrom_append (xs ys : List Line) :
    ∀ (last : String) (buf : List Event),
      streamEventsFrom last buf (xs ++ ys) =
        ((streamEventsFrom (streamEventsFrom last buf xs).1.1
            (streamEventsFrom last buf xs).1.2 ys).1,
          (streamEventsFrom last buf xs).2 ++
            (streamEventsFrom (streamEventsFrom last buf xs).1.1
              (streamEventsFrom last buf xs).1.2 ys).2) := by
  induction xs with
  | nil => intro last buf; simp [streamEventsFrom]
  | cons line rest ih =>
    intro last buf
    cases line with
    | none => simpa [streamEventsFrom] using ih last buf
    | some e =>
      cases hc : ((!buf.isEmpty || isConfirmType (Event.get e "type"))
          && !(strEqJ last (Event.get e "runID"))) with
      | true => simp [streamEventsFrom, hc, ih]
      | false => simp [streamEventsFrom, hc, ih, List.append_assoc]

/-- Once the event buffer is non-empty, a stream whose remaining parsed
events all carry non-string run identifiers never releases anything: the
`lastRunID != e["runID"]` comparison (string against non-string) is always
unequal, so every event is appended to the buffer and nothing is emitted. -/
lemma streamEventsFrom_stuck (lines : List Line) :
    ∀ (last : String) (buf : List Event), buf ≠ [] →
      (∀ e ∈ parsedOf lines, isStringJ (Event.get e "runID") = false) →
      ∃ l, streamEventsFrom last buf lines = ((l, buf ++ parsedOf lines), []) := by
  induction lines with
  | nil =>
    intro last buf _ _
    exact ⟨last, by simp [streamEventsFrom, parsedOf]⟩
  | cons line rest ih =>
    intro last buf hbuf hns
    cases line with
    | none =>
      have hns' : ∀ e ∈ parsedOf rest, isStringJ (Event.get e "runID") = false := by
        intro e he
        exact hns e (by simpa [parsedOf] using he)
      simpa [streamEventsFrom, parsedOf] using ih last buf hbuf hns'
    | some e =>
      have hre : isStringJ (Event.get e "runID") = false :=
        hns e (by simp [parsedOf])
      have hns' : ∀ ev ∈ parsedOf rest, isStringJ (Event.get ev "runID") = false := by
        intro ev hev
        apply hns ev
        simp only [parsedOf, List.filterMap] at hev ⊢
        simp at hev ⊢
        exact Or.inr hev
      have hne : buf.isEmpty = false := by
        cases buf with
        | nil => exact absurd rfl hbuf
        | cons b bs => rfl
      have hcond : ((!buf.isEmpty || isConfirmType (Event.get e "type"))
          && !(strEqJ last (Event.get e "runID"))) = true := by
        simp [hne, strEqJ_of_nonstring last hre]
      obtain ⟨l, hl⟩ := ih (jSprint (Event.get e "runID")) (buf ++ [e])
        (by simp) hns'
      refine ⟨l, ?_⟩
      have hstep : streamEventsFrom last buf (Option.some e :: rest)
          = streamEventsFrom (jSprint (Event.get e "runID")) (buf ++ [e]) rest := by
        simp [streamEventsFrom, hcond]
      rw [hstep, hl]
      simp [parsedOf, List.append_assoc]

/-- The final `lastRunID` of a `streamEvents` run is the fold of
`fmt.Sprint` of the run identifier over the parsed events: both branches of
the loop overwrite it with the current event's printed run identifier. -/
lemma streamEventsFrom_lastRunID (lines : List Line) :
    ∀ (last : String) (buf : List Event),
      (streamEventsFrom last buf lines).1.1 =
        (parsedOf lines).foldl (fun _ e => jSprint (Event.get e "runID")) last := by
  induction lines with
  | nil => intro last buf; simp [streamEventsFrom, parsedOf]
  | cons line rest ih =>
    intro last buf
    cases line with
    | none => simpa [streamEventsFrom, parsedOf] using ih last buf
    | some e =>
      cases hc : ((!buf.isEmpty || isConfirmType (Event.get e "type"))
          && !(strEqJ last (Event.get e "runID"))) with
      | true => simp [streamEventsFrom, hc, ih, parsedOf]
      | false => simp [streamEventsFrom, hc, ih, parsedOf]

/-- Folding a state-discarding function over a list lands on the image of
the last element (or the start value for an empty list). -/
lemma foldl_const_getLast (f : Event → String) :
    ∀ (l : List Event) (init : String),
      l.foldl (fun _ e => f e) init =
        match l.getLast? with
        | Option.none => init
        | Option.some e => f e := by
  intro l
  induction l with
  | nil => intro init; rfl
  | cons a t ih =>
    intro init
    cases t with
    | nil => simp [List.foldl]
    | cons b t2 =>
      have hsome : ∃ e, (b :: t2).getLast? = Option.some e := by
        have h1 : (b :: t2).getLast?.isSome = true := by
          rw [List.getLast?_isSome]
          simp
        exact Option.isSome_iff_exists.mp h1
      obtain ⟨e, he⟩ := hsome
      have h2 := ih (f a)
      rw [List.foldl_cons, h2, he, List.getLast?_cons_cons, he]

/-- Every action produced by `streamOutput` is an emitter call carrying a
`{key: text}` payload with a non-empty text. -/
lemma streamOutput_actions (key : String) :
    ∀ (chunks : List (List Char)) (a : TraceAction), a ∈ streamOutput key chunks →
      ∃ token : List Char, token ≠ [] ∧
        a = TraceAction.emit (EventPayload.keyed key (String.mk token)) := by
  intro chunks
  induction chunks with
  | nil => intro a ha; simp [streamOutput] at ha
  | cons chunk rest ih =>
    intro a ha
    by_cases he : (dropCR chunk).isEmpty = true
    · exact ih a (by simpa [streamOutput, he] using ha)
    · simp only [streamOutput, he, if_false] at ha
      rcases List.mem_cons.mp ha with h1 | h2
      · exact ⟨dropCR chunk, by simpa using he, h1⟩
      · exact ih a h2

/-- Elements of an interleaving come from one of the two interleaved lists. -/
lemma Interleave.mem_or {xs ys zs : List TraceAction}
    (h : Interleave xs ys zs) : ∀ a ∈ zs, a ∈ xs ∨ a ∈ ys := by
  induction h with
  | nil => intro a ha; cases ha
  | left _ ih =>
    intro a ha
    rcases List.mem_cons.mp ha with h1 | h2
    · exact Or.inl (by simp [h1])
    · rcases ih a h2 with h3 | h4
      · exact Or.inl (List.mem_cons_of_mem _ h3)
      · exact Or.inr h4
  | right _ ih =>
    intro a ha
    rcases List.mem_cons.mp ha with h1 | h2
    · exact Or.inr (by simp [h1])
    · rcases ih a h2 with h3 | h4
      · exact Or.inl h3
      · exact Or.inr (List.mem_cons_of_mem _ h4)

/-- A trace of the shape `pre ++ [sentinel]` where no action of `pre` writes
the sentinel contains exactly one sentinel write, as its very last action. -/
lemma sentinel_once_of_decomp {pre : List TraceAction}
    (hpre : ∀ a ∈ pre, isSentinel a = false) :
    ((pre ++ [TraceAction.rawWrite sentinelFrame]).filter isSentinel).length = 1 ∧
    (pre ++ [TraceAction.rawWrite sentinelFrame]).getLast?
      = Option.some (TraceAction.rawWrite sentinelFrame) := by
  constructor
  · rw [List.filter_append]
    have h1 : pre.filter isSentinel = [] := List.filter_eq_nil_iff.mpr (by
      intro a ha
      simp [hpre a ha])
    rw [h1]
    simp [isSentinel]
  · exact List.getLast?_concat _

/-- `waitAndFinishStream` is some prefix free of sentinel writes (the wait
call and the optional error event) followed by the sentinel write. -/
lemma waitAndFinishStream_decomp (tErr : Nat) (stdErr : String) (w : GoError) :
    ∃ init, waitAndFinishStream tErr stdErr w = init ++ [TraceAction.rawWrite sentinelFrame] ∧
      (∀ a ∈ init, isSentinel a = false) ∧
      init.head? = Option.some TraceAction.waitCall := by
  by_cases h : execErrOutput stdErr w = ""
  · refine ⟨[TraceAction.waitCall], ?_, ?_, rfl⟩
    · simp [waitAndFinishStream, h]
    · intro a ha
      simp at ha
      simp [ha, isSentinel]
  · refine ⟨[TraceAction.waitCall,
      TraceAction.emit (EventPayload.timed tErr "err" (execErrOutput stdErr w))], ?_, ?_, rfl⟩
    · simp [waitAndFinishStream, h]
    · intro a ha
      rcases List.mem_cons.mp ha with h1 | h2
      · simp [h1, isSentinel]
      · simp at h2
        simp [h2, isSentinel]

/-- Re-emitted passthrough events satisfy no predicate that is false on
passthrough payloads; in particular such a filter of them is empty. -/
lemma filter_passthrough_map (p : TraceAction → Bool)
    (hp : ∀ e : Event, p (TraceAction.emit (EventPayload.passthrough e)) = false)
    (es : List Event) :
    (es.map (fun e => TraceAction.emit (EventPayload.passthrough e))).filter p = [] := by
  induction es with
  | nil => rfl
  | cons e rest ih => simp [List.filter, hp, ih]

/-- Bytes written by consecutive emitter calls concatenate over list append. -/
lemma emitSession_append (xs ys : List GoValue) :
    emitSession (xs ++ ys) = emitSession xs ++ emitSession ys := by
  induction xs with
  | nil => rfl
  | cons v rest ih => simp [emitSession, List.foldr] at ih ⊢; simp [ih]

/-- C1: the spec's worked example for the Causal Event Reorderer fails on
the code.  With the example's literal JSON run identifiers (numbers), the
`string != any` comparison never matches, so only the first event is
emitted — not the claimed three-event order; and even with string run
identifiers the confirm event is already emitted before the run-2 event
arrives, so the two are not "released together when run-2's event
arrives". -/
theorem streamEvents_worked_example_counterexample :
    streamEvents [Option.some evtXnum, Option.some evtConfirmNum, Option.some evtYnum]
      ≠ [evtXnum, evtConfirmNum, evtYnum] ∧
    streamEvents [Option.some evtXnum, Option.some evtConfirmNum, Option.some evtYnum]
      = [evtXnum] ∧
    streamEvents [Option.some evtXstr, Option.some evtConfirmStr]
      = [evtXstr, evtConfirmStr] := by
  decide

/-- C1 (amended): on the worked example the code behaves as follows.  With
numeric run identifiers, exactly the first event is emitted and the confirm
and run-2 events end (and stay) in the buffer; with string run identifiers
the emitted order is event1, confirm event, run-2 event, each event being
released immediately on arrival (the confirm's runID already equals
`lastRunID`, so it is never withheld). -/
theorem streamEvents_worked_example_amended :
    streamEvents [Option.some evtXnum, Option.some evtConfirmNum, Option.some evtYnum]
      = [evtXnum] ∧
    bufAfter [Option.some evtXnum, Option.some evtConfirmNum, Option.some evtYnum]
      = [evtConfirmNum, evtYnum] ∧
    streamEvents [Option.some evtXstr, Option.some evtConfirmStr, Option.some evtYstr]
      = [evtXstr, evtConfirmStr, evtYstr] ∧
    streamEvents [Option.some evtXstr, Option.some evtConfirmStr]
      = [evtXstr, evtConfirmStr] := by
  decide

/-- C3: once a `callConfirm` event whose runID is a non-string JSON value
arrives, the buffered `lastRunID` (a string from `fmt.Sprint`) can never
compare equal to a later non-string runID, so that event and every
subsequent event of the stream are appended to the buffer and never
emitted; the buffer is silently discarded at end of stream. -/
theorem streamEvents_nonstring_runID_buffered_forever
    (pre : List Line) (c : Event) (post : List Line)
    (hc : isConfirmType (Event.get c "type") = true)
    (hcr : isStringJ (Event.get c "runID") = false)
    (hpost : ∀ e ∈ parsedOf post, isStringJ (Event.get e "runID") = false) :
    streamEvents (pre ++ Option.some c :: post) = streamEvents pre ∧
    bufAfter (pre ++ Option.some c :: post) = bufAfter pre ++ c :: parsedOf post := by
  have happ := streamEventsFrom_append pre (Option.some c :: post) "" []
  have hcond : ((!(streamEventsFrom "" [] pre).1.2.isEmpty
      || isConfirmType (Event.get c "type"))
      && !(strEqJ (streamEventsFrom "" [] pre).1.1 (Event.get c "runID"))) = true := by
    simp [hc, strEqJ_of_nonstring _ hcr]
  have hstep : streamEventsFrom (streamEventsFrom "" [] pre).1.1
      (streamEventsFrom "" [] pre).1.2 (Option.some c :: post)
      = streamEventsFrom (jSprint (Event.get c "runID"))
          ((streamEventsFrom "" [] pre).1.2 ++ [c]) post := by
    simp [streamEventsFrom, hcond]
  obtain ⟨l, hl⟩ := streamEventsFrom_stuck post (jSprint (Event.get c "runID"))
    ((streamEventsFrom "" [] pre).1.2 ++ [c]) (by simp) hpost
  constructor
  · show (streamEventsFrom "" [] (pre ++ Option.some c :: post)).2 = _
    rw [happ, hstep, hl]
    simp [streamEvents]
  · show (streamEventsFrom "" [] (pre ++ Option.some c :: post)).1.2 = _
    rw [happ, hstep, hl]
    simp [bufAfter, List.append_assoc]

/-- C3 witness: a confirm event with a numeric runID followed by another
numeric-runID event emits nothing and leaves both events in the buffer. -/
theorem streamEvents_nonstring_runID_buffered_forever_witness :
    streamEvents ([] ++ Option.some evtConfirmNum :: [Option.some evtYnum])
      = streamEvents [] ∧
    bufAfter ([] ++ Option.some evtConfirmNum :: [Option.some evtYnum])
      = bufAfter [] ++ evtConfirmNum :: parsedOf [Option.some evtYnum] :=
  streamEvents_nonstring_runID_buffered_forever [] evtConfirmNum [Option.some evtYnum]
    (by decide) (by decide) (by decide)

/-- C4: the claim that `lastRunID` always equals the runID of the most
recently released event (and is empty before any release) is false: a
lone confirm event is buffered, not released, yet `lastRunID` is set to its
printed runID. -/
theorem lastRunID_without_release_counterexample :
    streamEvents [Option.some evtConfirmStr] = [] ∧
    lastAfter [Option.some evtConfirmStr] = "1" ∧
    ("1" : String) ≠ "" := by
  decide

/-- C4 (amended): `lastRunID` tracks the most recently processed parsed
event — released or buffered — holding `fmt.Sprint` of its runID, and is
the empty string before any event has been processed. -/
theorem lastRunID_tracks_last_processed (lines : List Line) :
    lastAfter lines =
      match (parsedOf lines).getLast? with
      | Option.none => ""
      | Option.some e => jSprint (Event.get e "runID") := by
  show (streamEventsFrom "" [] lines).1.1 = _
  rw [streamEventsFrom_lastRunID]
  exact foldl_const_getLast _ (parsedOf lines) ""

/-- C5: the Line Framer emits, for each chunk, exactly the chunk with a
single trailing carriage return stripped, suppressing frames that become
empty; no emitted frame text is ever the empty string, and end of stream
with no buffered bytes stops the scanner without a final empty frame. -/
theorem streamOutput_frames_nonempty (key : String) (chunks : List (List Char)) :
    streamOutput key chunks =
      chunks.filterMap (fun c =>
        if (dropCR c).isEmpty then Option.none
        else Option.some (TraceAction.emit (EventPayload.keyed key (String.mk (dropCR c))))) ∧
    (∀ k s, TraceAction.emit (EventPayload.keyed k s) ∈ streamOutput key chunks → s ≠ "") ∧
    scan [] true = (0, Option.none) := by
  refine ⟨?_, ?_, rfl⟩
  · induction chunks with
    | nil => rfl
    | cons c rest ih =>
      by_cases he : dropCR c = []
      · simp [streamOutput, he, ih]
      · simp [streamOutput, he, ih]
  · intro k s hmem
    obtain ⟨token, hne, heq⟩ := streamOutput_actions key chunks _ hmem
    simp only [TraceAction.emit.injEq, EventPayload.keyed.injEq] at heq
    rw [heq.2]
    exact stringMk_ne_empty hne

/-- C5 witness: a concrete chunk whose frame survives is emitted with
non-empty text. -/
theorem streamOutput_frames_nonempty_witness : ("a" : String) ≠ "" :=
  (streamOutput_frames_nonempty "stdout" [['a']]).2.1 "stdout" "a" (by decide)

/-- C10: `dropCR` removes at most one trailing carriage return: a chunk
ending in two carriage returns keeps one of them, and a chunk that is a
lone carriage return becomes empty and is suppressed by `streamOutput`. -/
theorem dropCR_at_most_one_cr :
    (∀ bs : List Char, bs.length ≤ (dropCR bs).length + 1) ∧
    dropCR ['a', '\x0d', '\x0d'] = ['a', '\x0d'] ∧
    dropCR ['\x0d'] = [] ∧
    streamOutput "stdout" [['a', '\x0d', '\x0d'], ['\x0d']] =
      [TraceAction.emit (EventPayload.keyed "stdout" (String.mk ['a', '\x0d']))] := by
  refine ⟨?_, by decide, by decide, by decide⟩
  intro bs
  unfold dropCR
  split
  · simp only [List.length_dropLast]
    omega
  · omega

/-- C6: on a deadline-exceeded wait result the finalizer emits exactly one
`err` event, whose message contains the substring "took too long", and the
event precedes the sentinel write. -/
theorem waitAndFinishStream_deadline_exceeded (t : Nat) (stdErr : String) :
    waitAndFinishStream t stdErr GoError.deadlineExceeded =
      [TraceAction.waitCall,
       TraceAction.emit (EventPayload.timed t "err"
         (execErrOutput stdErr GoError.deadlineExceeded)),
       TraceAction.rawWrite sentinelFrame] ∧
    (∃ p q, execErrOutput stdErr GoError.deadlineExceeded = p ++ "took too long" ++ q) ∧
    ((waitAndFinishStream t stdErr GoError.deadlineExceeded).filter (isTimedKey "err")).length
      = 1 := by
  have h1 : execErrOutput stdErr GoError.deadlineExceeded
      = "The tool call took too long to complete, aborting" := rfl
  have h2 : ¬(execErrOutput stdErr GoError.deadlineExceeded = "") := by
    rw [h1]; decide
  refine ⟨?_, ⟨"The tool call ", " to complete, aborting", rfl⟩, ?_⟩
  · simp [waitAndFinishStream, h2]
  · simp [waitAndFinishStream, h2, isTimedKey, List.filter]

/-- C7: on a nil wait result the finalizer emits zero `err` events and
exactly one sentinel write. -/
theorem waitAndFinishStream_success (t : Nat) (stdErr : String) :
    waitAndFinishStream t stdErr GoError.none
      = [TraceAction.waitCall, TraceAction.rawWrite sentinelFrame] ∧
    ((waitAndFinishStream t stdErr GoError.none).filter (isTimedKey "err")).length = 0 ∧
    ((waitAndFinishStream t stdErr GoError.none).filter isSentinel).length = 1 := by
  have h1 : execErrOutput stdErr GoError.none = "" := rfl
  refine ⟨?_, ?_, ?_⟩ <;> simp [waitAndFinishStream, h1, isTimedKey, isSentinel, List.filter]

/-- C8: when serializing an event fails, `writeServerSentEvent` writes
nothing to the sink, and a caller issuing a sequence of emitter calls
produces the same bytes as if the malformed event were absent — the session
continues with the following events. -/
theorem writeServerSentEvent_marshal_failure_drops (v : GoValue)
    (h : v.marshalJSON = Option.none) :
    writeServerSentEvent v = [] ∧
    ∀ (pre post : List GoValue),
      emitSession (pre ++ v :: post) = emitSession pre ++ emitSession post := by
  have h0 : writeServerSentEvent v = [] := by simp [writeServerSentEvent, h]
  refine ⟨h0, ?_⟩
  intro pre post
  have hsplit : pre ++ v :: post = pre ++ ([v] ++ post) := rfl
  rw [hsplit, emitSession_append, emitSession_append]
  have h1 : emitSession [v] = [] := by simp [emitSession, h0]
  rw [h1]
  simp

/-- C8 witness: a failing event between two well-formed events contributes
no bytes and does not disturb the neighbouring frames. -/
theorem writeServerSentEvent_marshal_failure_drops_witness :
    writeServerSentEvent (GoValue.mk Option.none) = [] ∧
    emitSession [GoValue.mk (Option.some "a"), GoValue.mk Option.none,
        GoValue.mk (Option.some "b")]
      = emitSession [GoValue.mk (Option.some "a")]
        ++ emitSession [GoValue.mk (Option.some "b")] := by
  have h := writeServerSentEvent_marshal_failure_drops (GoValue.mk Option.none) rfl
  exact ⟨h.1, h.2 [GoValue.mk (Option.some "a")] [GoValue.mk (Option.some "b")]⟩

/-- C2: a counterexample to "the sentinel frame is written in every failed
session": an events-mode session whose stdout read fails writes an error
body and returns early, so the trace contains zero sentinel writes and does
not end with the sentinel. -/
theorem processEventStreamOutput_read_error_no_sentinel :
    ((processEventStreamOutput [] (Except.error "read failure") (Except.ok "")
        0 0 0 GoError.none).filter isSentinel).length = 0 ∧
    (processEventStreamOutput [] (Except.error "read failure") (Except.ok "")
        0 0 0 GoError.none).getLast?
      ≠ Option.some (TraceAction.rawWrite sentinelFrame) := by
  decide

/-- C2 (amended): in plain streaming mode the sentinel is written exactly
once and is the last write of every session (whatever the wait outcome and
whatever interleaving the two relay goroutines produce); in events mode the
same holds provided both `io.ReadAll` calls succeed. -/
theorem sentinel_once_and_last_amended :
    (∀ (cs1 cs2 : List (List Char)) (inter : List TraceAction) (tErr : Nat) (w : GoError),
        Interleave (streamOutput "stdout" cs1) (streamOutput "stderr" cs2) inter →
        ((processOutputStream inter tErr w).filter isSentinel).length = 1 ∧
        (processOutputStream inter tErr w).getLast?
          = Option.some (TraceAction.rawWrite sentinelFrame)) ∧
    (∀ (lines : List Line) (out errS : String) (t1 t2 t3 : Nat) (w : GoError),
        ((processEventStreamOutput lines (Except.ok out) (Except.ok errS)
            t1 t2 t3 w).filter isSentinel).length = 1 ∧
        (processEventStreamOutput lines (Except.ok out) (Except.ok errS)
            t1 t2 t3 w).getLast?
          = Option.some (TraceAction.rawWrite sentinelFrame)) := by
  constructor
  · intro cs1 cs2 inter tErr w hint
    obtain ⟨init, hwf, hinit, _⟩ := waitAndFinishStream_decomp tErr "" w
    have htrace : processOutputStream inter tErr w
        = (inter ++ init) ++ [TraceAction.rawWrite sentinelFrame] := by
      show inter ++ waitAndFinishStream tErr "" w = _
      rw [hwf, List.append_assoc]
    have hip : ∀ a ∈ inter ++ init, isSentinel a = false := by
      intro a ha
      rcases List.mem_append.mp ha with h1 | h2
      · rcases Interleave.mem_or hint a h1 with h3 | h4
        · obtain ⟨tok, _, heq⟩ := streamOutput_actions "stdout" cs1 a h3
          simp [heq, isSentinel]
        · obtain ⟨tok, _, heq⟩ := streamOutput_actions "stderr" cs2 a h4
          simp [heq, isSentinel]
      · exact hinit a h2
    rw [htrace]
    exact sentinel_once_of_decomp hip
  · intro lines out errS t1 t2 t3 w
    obtain ⟨init, hwf, hinit, _⟩ := waitAndFinishStream_decomp t3 errS w
    have htrace : processEventStreamOutput lines (Except.ok out) (Except.ok errS) t1 t2 t3 w
        = ((streamEvents lines).map (fun e => TraceAction.emit (EventPayload.passthrough e))
            ++ (TraceAction.emit (EventPayload.timed t1 "stderr" errS) ::
                TraceAction.emit (EventPayload.timed t2 "stdout" out) :: init))
          ++ [TraceAction.rawWrite sentinelFrame] := by
      show (streamEvents lines).map (fun e => TraceAction.emit (EventPayload.passthrough e))
          ++ (TraceAction.emit (EventPayload.timed t1 "stderr" errS) ::
              TraceAction.emit (EventPayload.timed t2 "stdout" out) ::
              waitAndFinishStream t3 errS w) = _
      rw [hwf]
      simp [List.append_assoc]
    have hip : ∀ a ∈ (streamEvents lines).map
        (fun e => TraceAction.emit (EventPayload.passthrough e))
        ++ (TraceAction.emit (EventPayload.timed t1 "stderr" errS) ::
            TraceAction.emit (EventPayload.timed t2 "stdout" out) :: init),
        isSentinel a = false := by
      intro a ha
      rcases List.mem_append.mp ha with h1 | h2
      · obtain ⟨e, _, heq⟩ := List.mem_map.mp h1
        simp [← heq, isSentinel]
      · rcases List.mem_cons.mp h2 with h3 | h4
        · simp [h3, isSentinel]
        · rcases List.mem_cons.mp h4 with h5 | h6
          · simp [h5, isSentinel]
          · exact hinit a h6
    rw [htrace]
    exact sentinel_once_of_decomp hip

/-- C2 witness: a concrete plain-streaming session with one stdout frame
and an empty stderr has exactly one sentinel write, at the very end. -/
theorem sentinel_once_and_last_amended_witness :
    ((processOutputStream [TraceAction.emit (EventPayload.keyed "stdout" (String.mk ['a']))]
        0 GoError.none).filter isSentinel).length = 1 ∧
    (processOutputStream [TraceAction.emit (EventPayload.keyed "stdout" (String.mk ['a']))]
        0 GoError.none).getLast?
      = Option.some (TraceAction.rawWrite sentinelFrame) := by
  apply sentinel_once_and_last_amended.1 [['a']] []
    [TraceAction.emit (EventPayload.keyed "stdout" (String.mk ['a']))] 0 GoError.none
  have h1 : streamOutput "stdout" [['a']]
      = [TraceAction.emit (EventPayload.keyed "stdout" (String.mk ['a']))] := by decide
  have h2 : streamOutput "stderr" ([] : List (List Char)) = [] := rfl
  rw [h1, h2]
  exact Interleave.left Interleave.nil

/-- C9: events-mode processing is sequential: the trace consists of all the
passthrough events from the drained event stream, then exactly one timed
stderr event carrying the whole captured stderr, then exactly one timed
stdout event carrying the whole captured stdout, and only then the `wait()`
invocation, which the finalizer performs as its first step. -/
theorem processEventStreamOutput_sequential (lines : List Line) (out errS : String)
    (t1 t2 t3 : Nat) (w : GoError) :
    processEventStreamOutput lines (Except.ok out) (Except.ok errS) t1 t2 t3 w =
      (streamEvents lines).map (fun e => TraceAction.emit (EventPayload.passthrough e)) ++
        TraceAction.emit (EventPayload.timed t1 "stderr" errS) ::
        TraceAction.emit (EventPayload.timed t2 "stdout" out) ::
        waitAndFinishStream t3 errS w ∧
    ((processEventStreamOutput lines (Except.ok out) (Except.ok errS) t1 t2 t3 w).filter
        (isTimedKey "stderr")).length = 1 ∧
    ((processEventStreamOutput lines (Except.ok out) (Except.ok errS) t1 t2 t3 w).filter
        (isTimedKey "stdout")).length = 1 ∧
    ((processEventStreamOutput lines (Except.ok out) (Except.ok errS) t1 t2 t3 w).filter
        isWaitCall).length = 1 ∧
    (waitAndFinishStream t3 errS w).head? = Option.some TraceAction.waitCall := by
  have hpass1 := filter_passthrough_map (isTimedKey "stderr") (fun e => rfl) (streamEvents lines)
  have hpass2 := filter_passthrough_map (isTimedKey "stdout") (fun e => rfl) (streamEvents lines)
  have hpass3 := filter_passthrough_map isWaitCall (fun e => rfl) (streamEvents lines)
  refine ⟨rfl, ?_, ?_, ?_, rfl⟩ <;>
    by_cases h : execErrOutput errS w = "" <;>
      simp [processEventStreamOutput, waitAndFinishStream, h, List.filter_append,
        hpass1, hpass2, hpass3, isTimedKey, isWaitCall, List.filter]
